import Mathlib

/-!
Shallow embedding of `src/main.py`, a multi-camera face-recognition monitor.

The program keeps a global `people_status` dict mapping a person's name to a
record with fields `best_cam_index`, `distance`, `is_match` and `ref_img`
(lines 36-49).  A background worker `process_multi_camera` (lines 75-122)
evaluates every (identity, camera) pair against an external verification
oracle (`DeepFace.verify`) and republishes each identity's status field by
field (lines 115-117).  The main loop (lines 129-194) captures frames,
dispatches the worker every 30 counted ticks when idle (lines 150-155), and
renders one window per identity.

Modelling choices:
- image buffers are opaque identifiers (`Img := Nat`); `.copy()` in the
  source produces an equal value, so copies are the identity here;
- float distances are rationals (the comparisons used are order-theoretic);
- the oracle (`DeepFace.verify` plus its exception behaviour) is an explicit
  function from probe and reference image to a result: a returned dict with
  `verified`/`distance` keys, or a raised exception (`OracleResult.err`);
- Python dicts that the program builds with distinct keys in insertion order
  are association lists (`List (key × value)`).
-/

namespace MultiCamFace

/-- Image buffers, as opaque identifiers.  `img.copy()` in the source yields
an equal buffer, so copying is the identity in this value-level model. -/
abbrev Img := Nat

/-- Outcome of one `DeepFace.verify` call (src/main.py lines 94-100): either
the returned result dict (`verified` flag and `distance` score), or a raised
exception (face not detected, network failure, ...), which line 111 catches. -/
inductive OracleResult where
  | ok (verified : Bool) (distance : ℚ)
  | err
deriving DecidableEq

/-- The external face-verification oracle: probe image, reference image to
result.  `DeepFace.verify` is called with fixed model/detector configuration
(lines 97-98), so the configuration is baked into the function. -/
abbrev Oracle := Img → Img → OracleResult

/-- One identity's entry of the global `people_status` dict (lines 44-48):
`{"best_cam_index": int, "distance": float, "is_match": bool, "ref_img": img}`. -/
structure IdentityStatus where
  best_cam_index : Int
  distance : ℚ
  is_match : Bool
  ref_img : Img
deriving DecidableEq

/-- The `people_status` dict: names to statuses, in insertion order. -/
abbrev PS := List (String × IdentityStatus)

/-- Python dict read `d[k]` / `d.get(k)`, as association-list lookup. -/
def dictGet {α β : Type} [DecidableEq α] (k : α) : List (α × β) → Option β
  | [] => none
  | e :: rest => if e.1 = k then some e.2 else dictGet k rest

/-- The per-identity accumulator of `process_multi_camera` (lines 84-86):
`current_best_cam`, `current_best_dist`, `found_match`. -/
structure Acc where
  current_best_cam : Int
  current_best_dist : ℚ
  found_match : Bool
deriving DecidableEq

/-- Initial accumulator values (lines 84-86): camera `-1`, distance `10.0`
("High number = bad match"), no match found. -/
def initAcc : Acc := ⟨-1, 10, false⟩

/-- One iteration of the inner camera loop (lines 91-112) for one
(identity, camera) pair `p = (cam_idx, frame)`: call the oracle; on a raised
exception do nothing (line 111-112); on a result, if `verified` set
`found_match` and replace the best camera when the distance is strictly
smaller (lines 102-109). -/
def evalPair (oracle : Oracle) (ref_img : Img) (acc : Acc) (p : Nat × Img) : Acc :=
  match oracle p.2 ref_img with
  | .ok true distance =>
    let found : Acc := { acc with found_match := true }
    if distance < found.current_best_dist then
      { found with current_best_dist := distance, current_best_cam := (p.1 : Int) }
    else found
  | .ok false _ => acc
  | .err => acc

/-- The whole inner camera loop for one identity (lines 84-112): fold
`evalPair` over the snapshot's `(cam_idx, frame)` entries in iteration
order, starting from the initial accumulator. -/
def evalIdentity (oracle : Oracle) (frames_dict : List (Nat × Img)) (ref_img : Img) : Acc :=
  frames_dict.foldl (evalPair oracle ref_img) initAcc

/-- The verified results of the camera loop for one identity: the
`(cam_idx, distance)` pairs for which the oracle returned `verified = True`,
in evaluation order.  These are the pairs that can update the accumulator. -/
def verifiedList (oracle : Oracle) (ref_img : Img) (frames_dict : List (Nat × Img)) :
    List (Nat × ℚ) :=
  frames_dict.filterMap (fun p =>
    match oracle p.2 ref_img with
    | .ok true d => some (p.1, d)
    | .ok false _ => none
    | .err => none)

/-- The accumulator step restricted to verified results: what `evalPair`
does on a `(cam_idx, distance)` pair the oracle verified. -/
def vstep (acc : Acc) (q : Nat × ℚ) : Acc :=
  let found : Acc := { acc with found_match := true }
  if q.2 < found.current_best_dist then
    { found with current_best_dist := q.2, current_best_cam := (q.1 : Int) }
  else found

/-- The three status-field updates of lines 115-117, combined: overwrite
`is_match`, `best_cam_index` and `distance` with the accumulator's values,
keeping `ref_img`. -/
def publishFields (st : IdentityStatus) (a : Acc) : IdentityStatus :=
  { st with
    is_match := a.found_match
    best_cam_index := a.current_best_cam
    distance := a.current_best_dist }

/-- Update the entry of one name of the status dict in place, keeping every
other entry and the key order: the shape of `people_status[name][...] = v`. -/
def setFields (ps : PS) (name : String) (f : IdentityStatus → IdentityStatus) : PS :=
  ps.map (fun e => if e.1 = name then (e.1, f e.2) else e)

/-- The background worker `process_multi_camera` (lines 75-122), recursing
over `valid_people`: for each name, look its status up (a missing key would
raise `KeyError` at line 88, caught by the outer handler at line 119, which
aborts the rest of the pass and keeps the updates made so far), run the
camera loop on the looked-up reference image, and overwrite the three
result fields of that name's status (lines 115-117). -/
def process_multi_camera (oracle : Oracle) (frames_dict : List (Nat × Img)) :
    List String → PS → PS
  | [], people_status => people_status
  | name :: rest, people_status =>
    match dictGet name people_status with
    | none => people_status
    | some st =>
      process_multi_camera oracle frames_dict rest
        (setFields people_status name
          (fun s => publishFields s (evalIdentity oracle frames_dict st.ref_img)))

/-- One shared-state write of the worker.  Lines 115-117 are three separate
assignments to the global `people_status` dict; each single assignment is
atomic (one dict-item store under the interpreter lock), but the record as a
whole is not replaced in one step, so a concurrent reader can run between
them. -/
inductive FieldW where
  | m (b : Bool)
  | c (v : Int)
  | d (v : ℚ)
deriving DecidableEq

/-- Effect of one field write on one status record: line 115 (`is_match`),
line 116 (`best_cam_index`) or line 117 (`distance`). -/
def applyFieldW : FieldW → IdentityStatus → IdentityStatus
  | .m b, st => { st with is_match := b }
  | .c v, st => { st with best_cam_index := v }
  | .d v, st => { st with distance := v }

/-- Apply one named field write to the shared status dict. -/
def applyW (ps : PS) (w : String × FieldW) : PS :=
  setFields ps w.1 (applyFieldW w.2)

/-- The three writes lines 115-117 perform for one identity, in program
order: `is_match`, then `best_cam_index`, then `distance`. -/
def fieldWritesOf (name : String) (a : Acc) : List (String × FieldW) :=
  [(name, .m a.found_match), (name, .c a.current_best_cam), (name, .d a.current_best_dist)]

/-- The full sequence of shared-state writes one pass performs, in program
order: for each identity in turn, its three field writes, computed against
the dict state at that point (the camera loop reads only `ref_img`, which no
write changes).  A concurrent reader observes the dict after some prefix of
this sequence. -/
def passWrites (oracle : Oracle) (frames_dict : List (Nat × Img)) :
    List String → PS → List (String × FieldW)
  | [], _ => []
  | name :: rest, people_status =>
    match dictGet name people_status with
    | none => []
    | some st =>
      let a := evalIdentity oracle frames_dict st.ref_img
      fieldWritesOf name a ++
        passWrites oracle frames_dict rest
          (setFields people_status name (fun s => publishFields s a))

/-- State of the dispatch logic of the main loop (lines 127, 73, 150-157):
the tick counter, the ambient `is_processing` flag, and a ghost count of
worker threads currently alive (not a program variable; it tracks how many
`process_multi_camera` calls have started and not yet run their `finally`). -/
structure LoopState where
  counter : Nat
  is_processing : Bool
  inFlight : Nat
deriving DecidableEq

/-- Events driving the dispatch state: one main-loop iteration with its
capture validity (lines 129-157), or an in-flight worker finishing (the
`finally` block, line 121-122; it fires whether the pass succeeded or the
outer handler caught an error). -/
inductive LoopEvent where
  | tick (valid_capture : Bool)
  | complete

/-- Transition of the dispatch state.  A tick with no valid capture skips
dispatch and the counter entirely (the `if valid_capture` body, lines
143-157, is not entered).  A valid tick starts a worker exactly when
`counter % 30 == 0 and not is_processing` (line 150), setting the flag
before spawning (line 151), and then increments the counter (line 157).
A completion clears the flag and ends one worker. -/
def loopStep (s : LoopState) : LoopEvent → LoopState
  | .complete => { s with is_processing := false, inFlight := s.inFlight - 1 }
  | .tick valid =>
    if valid then
      if s.counter % 30 = 0 ∧ s.is_processing = false then
        { counter := s.counter + 1, is_processing := true, inFlight := s.inFlight + 1 }
      else { s with counter := s.counter + 1 }
    else s

/-- Dispatch states reachable from program start (`counter = 0` at line 127,
`is_processing = False` at line 73, no worker running). -/
inductive ReachableLoop : LoopState → Prop where
  | init : ReachableLoop ⟨0, false, 0⟩
  | step (s : LoopState) (e : LoopEvent) : ReachableLoop s → ReachableLoop (loopStep s e)

/-- One capture source (lines 55-61): its frame stream, indexed by how many
reads have been attempted so far (`none` = this read fails), and its read
cursor. -/
structure Cam where
  stream : Nat → Option Img
  cursor : Nat

/-- The per-tick capture loop (lines 137-141) starting at camera index `i`:
each source is read once, advancing its cursor; successful reads are added
to `current_frames` under their index, in ascending-index order. -/
def readAll : Nat → List Cam → List Cam × List (Nat × Img)
  | _, [] => ([], [])
  | i, c :: cs =>
    ({ c with cursor := c.cursor + 1 } :: (readAll (i + 1) cs).1,
     match c.stream c.cursor with
     | some f => (i, f) :: (readAll (i + 1) cs).2
     | none => (readAll (i + 1) cs).2)

/-- The whole capture step of one tick (lines 135-141): first the dummy
connectivity read `ret0, _ = caps[0].read()` (line 135), whose frame is
discarded, then the read loop over all sources.  With no sources, `caps[0]`
raises `IndexError` (modelled as `none`); `CAMERA_SOURCES` is non-empty in
the shipped configuration, so the access is unguarded. -/
def captureTick (caps : List Cam) : Option (List Cam × List (Nat × Img)) :=
  match caps with
  | [] => none
  | c0 :: rest => some (readAll 0 ({ c0 with cursor := c0.cursor + 1 } :: rest))

/-- Initial status of a loaded identity (line 44). -/
def initialStatus (img : Img) : IdentityStatus :=
  { best_cam_index := -1, distance := 10, is_match := false, ref_img := img }

/-- The reference-image loading loop (lines 40-52): configuration entries
are `(name, cv2.imread result)`; a loaded image adds a status entry and the
name to `valid_people`, in iteration order; a failed load only prints an
error line and is skipped. -/
def loadPeople : List (String × Option Img) → PS × List String
  | [] => ([], [])
  | (name, some img) :: rest =>
    ((name, initialStatus img) :: (loadPeople rest).1, name :: (loadPeople rest).2)
  | (_, none) :: rest => loadPeople rest

/-- Outcome of the setup section (lines 32-68).  After the loading loop the
program unconditionally initializes the capture objects (constructing a
`cv2.VideoCapture` never raises), attempts the model build inside a
`try/except` that only prints (lines 64-68), and falls through to the main
loop: no branch of the setup code terminates the process, whatever loaded. -/
structure Startup where
  people_status : PS
  valid_people : List String
  entersMainLoop : Bool

/-- Run the setup section on a configuration (the `PEOPLE_CONFIG` entries
with each path's load result). -/
def runStartup (cfg : List (String × Option Img)) : Startup :=
  { people_status := (loadPeople cfg).1
    valid_people := (loadPeople cfg).2
    entersMainLoop := true }

/-- How one main-loop iteration ends (lines 129-194). -/
inductive TickOutcome where
  | cont
  | quit
deriving DecidableEq

/-- Loop-control result of one iteration: whatever the capture produced
(with no valid capture the iteration only prints "Waiting for cameras...",
line 190), the loop breaks exactly when the pressed key is `q` (lines
192-194); otherwise it continues. -/
def mainTickResult (valid_capture : Bool) (key_is_q : Bool) : TickOutcome :=
  if key_is_q then .quit else (if valid_capture then .cont else .cont)

/-! Concrete fixtures used by witnesses and counterexamples. -/

/-- A fresh status entry whose reference image is buffer `0`. -/
def statusA : IdentityStatus := { best_cam_index := -1, distance := 10, is_match := false, ref_img := 0 }

/-- A fresh status entry whose reference image is buffer `7`. -/
def statusB : IdentityStatus := { best_cam_index := -1, distance := 10, is_match := false, ref_img := 7 }

/-- A two-identity status dict as built by the loading loop. -/
def wPS : PS := [("A", statusA), ("B", statusB)]

/-- A one-identity status dict. -/
def onePS : PS := [("A", statusA)]

/-- An oracle that verifies identity `A` (reference buffer `0`) on both
cameras, at distance 2 on camera 0's frame (buffer 1) and 3 on camera 1's
frame (buffer 2), and reports identity `B`'s reference as not verified. -/
def wOracle : Oracle := fun probe r =>
  if r = 0 then (if probe = 1 then .ok true 2 else .ok true 3) else .ok false 0

/-- An oracle that raises on camera 0's frame (buffer 1) and verifies every
other probe at distance 2. -/
def wOracleErr : Oracle := fun probe _ => if probe = 1 then .err else .ok true 2

/-- An oracle whose every answer is a verified match at distance 12, beyond
the 10.0 sentinel. -/
def oracle12 : Oracle := fun _ _ => .ok true 12

/-- An oracle whose every answer is a verified match at distance 11, beyond
the 10.0 sentinel. -/
def oracle11 : Oracle := fun _ _ => .ok true 11

/-- An oracle whose every answer is a verified match at distance 2. -/
def oracle2 : Oracle := fun _ _ => .ok true 2

/-- A two-camera frame snapshot: camera 0 delivered buffer 1, camera 1
delivered buffer 2. -/
def wFrames : List (Nat × Img) := [(0, 1), (1, 2)]

/-- A one-camera frame snapshot: camera 0 delivered buffer 1. -/
def oneFrame : List (Nat × Img) := [(0, 1)]

/-- A camera whose stream delivers buffer `100 + n` at read attempt `n`. -/
def wCam : Cam := { stream := fun n => some (100 + n), cursor := 0 }

/-! Lemmas about the per-identity camera loop. -/

theorem vstep_found (a : Acc) (q : Nat × ℚ) : (vstep a q).found_match = true := by
  unfold vstep
  dsimp only
  split <;> rfl

theorem vstep_pos {a : Acc} {q : Nat × ℚ} (h : q.2 < a.current_best_dist) :
    vstep a q = ⟨(q.1 : Int), q.2, true⟩ := by
  unfold vstep
  dsimp only
  rw [if_pos h]

theorem vstep_neg {a : Acc} {q : Nat × ℚ} (h : ¬ q.2 < a.current_best_dist) :
    vstep a q = { a with found_match := true } := by
  unfold vstep
  dsimp only
  rw [if_neg h]

theorem vstep_dist_le (a : Acc) (q : Nat × ℚ) :
    (vstep a q).current_best_dist ≤ a.current_best_dist := by
  by_cases h : q.2 < a.current_best_dist
  · rw [vstep_pos h]; exact le_of_lt h
  · rw [vstep_neg h]

theorem vstep_dist_le_snd (a : Acc) (q : Nat × ℚ) :
    (vstep a q).current_best_dist ≤ q.2 := by
  by_cases h : q.2 < a.current_best_dist
  · rw [vstep_pos h]
  · rw [vstep_neg h]; exact le_of_not_lt h

theorem evalPair_verified {oracle : Oracle} {ref : Img} {p : Nat × Img} {d : ℚ}
    (h : oracle p.2 ref = .ok true d) (acc : Acc) :
    evalPair oracle ref acc p = vstep acc (p.1, d) := by
  unfold evalPair vstep
  rw [h]

theorem evalPair_notVerified {oracle : Oracle} {ref : Img} {p : Nat × Img} {d : ℚ}
    (h : oracle p.2 ref = .ok false d) (acc : Acc) :
    evalPair oracle ref acc p = acc := by
  unfold evalPair
  rw [h]

theorem evalPair_err {oracle : Oracle} {ref : Img} {p : Nat × Img}
    (h : oracle p.2 ref = .err) (acc : Acc) :
    evalPair oracle ref acc p = acc := by
  unfold evalPair
  rw [h]

theorem foldl_evalPair_eq (oracle : Oracle) (ref : Img) :
    ∀ (frames : List (Nat × Img)) (acc : Acc),
      frames.foldl (evalPair oracle ref) acc
        = (verifiedList oracle ref frames).foldl vstep acc := by
  intro frames
  induction frames with
  | nil => intro acc; rfl
  | cons p rest ih =>
    intro acc
    rw [List.foldl_cons]
    cases h : oracle p.2 ref with
    | ok v d =>
      cases v
      · rw [evalPair_notVerified h]
        have hv : verifiedList oracle ref (p :: rest) = verifiedList oracle ref rest := by
          unfold verifiedList
          rw [List.filterMap_cons, h]
        rw [hv]
        exact ih acc
      · rw [evalPair_verified h]
        have hv : verifiedList oracle ref (p :: rest)
            = (p.1, d) :: verifiedList oracle ref rest := by
          unfold verifiedList
          rw [List.filterMap_cons, h]
        rw [hv, List.foldl_cons]
        exact ih (vstep acc (p.1, d))
    | err =>
      rw [evalPair_err h]
      have hv : verifiedList oracle ref (p :: rest) = verifiedList oracle ref rest := by
        unfold verifiedList
        rw [List.filterMap_cons, h]
      rw [hv]
      exact ih acc

theorem evalIdentity_eq_vfold (oracle : Oracle) (frames : List (Nat × Img)) (ref : Img) :
    evalIdentity oracle frames ref = (verifiedList oracle ref frames).foldl vstep initAcc :=
  foldl_evalPair_eq oracle ref frames initAcc

theorem vfold_dist_le : ∀ (vs : List (Nat × ℚ)) (a : Acc),
    (vs.foldl vstep a).current_best_dist ≤ a.current_best_dist := by
  intro vs
  induction vs with
  | nil => intro a; exact le_refl _
  | cons q rest ih =>
    intro a
    rw [List.foldl_cons]
    exact le_trans (ih (vstep a q)) (vstep_dist_le a q)

theorem vfold_dist_le_mem : ∀ (vs : List (Nat × ℚ)) (a : Acc) (q : Nat × ℚ), q ∈ vs →
    (vs.foldl vstep a).current_best_dist ≤ q.2 := by
  intro vs
  induction vs with
  | nil => intro a q hq; cases hq
  | cons p rest ih =>
    intro a q hq
    rw [List.foldl_cons]
    rcases List.mem_cons.mp hq with hq | hq
    · subst hq
      exact le_trans (vfold_dist_le rest (vstep a q)) (vstep_dist_le_snd a q)
    · exact ih (vstep a p) q hq

theorem vfold_dist_cases : ∀ (vs : List (Nat × ℚ)) (a : Acc),
    (vs.foldl vstep a).current_best_dist = a.current_best_dist
      ∨ ∃ q ∈ vs, (vs.foldl vstep a).current_best_dist = q.2 := by
  intro vs
  induction vs with
  | nil => intro a; exact Or.inl rfl
  | cons p rest ih =>
    intro a
    rw [List.foldl_cons]
    rcases ih (vstep a p) with h | ⟨q, hq, h⟩
    · by_cases hp : p.2 < a.current_best_dist
      · refine Or.inr ⟨p, List.mem_cons_self _ _, ?_⟩
        rw [h, vstep_pos hp]
      · refine Or.inl ?_
        rw [h, vstep_neg hp]
    · exact Or.inr ⟨q, List.mem_cons_of_mem _ hq, h⟩

theorem vfold_cam_of_dist_eq : ∀ (vs : List (Nat × ℚ)) (a : Acc),
    (vs.foldl vstep a).current_best_dist = a.current_best_dist →
    (vs.foldl vstep a).current_best_cam = a.current_best_cam := by
  intro vs
  induction vs with
  | nil => intro a _; rfl
  | cons p rest ih =>
    intro a h
    rw [List.foldl_cons] at h ⊢
    by_cases hp : p.2 < a.current_best_dist
    · exfalso
      have hle : (rest.foldl vstep (vstep a p)).current_best_dist
          ≤ (vstep a p).current_best_dist := vfold_dist_le rest (vstep a p)
      rw [h, vstep_pos hp] at hle
      exact absurd (lt_of_lt_of_le hp hle) (lt_irrefl _)
    · have ha : vstep a p = { a with found_match := true } := vstep_neg hp
      rw [ha] at h ⊢
      exact ih _ h

theorem vfold_found : ∀ (vs : List (Nat × ℚ)) (a : Acc),
    (vs.foldl vstep a).found_match = (a.found_match || !vs.isEmpty) := by
  intro vs
  induction vs with
  | nil => intro a; simp
  | cons p rest ih =>
    intro a
    rw [List.foldl_cons, ih (vstep a p), vstep_found]
    simp

theorem vfold_cam_spec : ∀ (vs : List (Nat × ℚ)) (a : Acc),
    vs.Pairwise (fun x y => x.1 < y.1) →
    (vs.foldl vstep a).current_best_dist < a.current_best_dist →
    ∃ q ∈ vs, (vs.foldl vstep a).current_best_cam = (q.1 : Int)
      ∧ q.2 = (vs.foldl vstep a).current_best_dist
      ∧ ∀ p ∈ vs, p.2 = (vs.foldl vstep a).current_best_dist → q.1 ≤ p.1 := by
  intro vs
  induction vs with
  | nil => intro a _ h; exact absurd h (lt_irrefl _)
  | cons p rest ih =>
    intro a hpw hlt
    rw [List.foldl_cons] at hlt ⊢
    rcases List.pairwise_cons.mp hpw with ⟨hp, hrest⟩
    by_cases hcase : p.2 < a.current_best_dist
    · rw [vstep_pos hcase] at hlt ⊢
      by_cases heq : (rest.foldl vstep ⟨(p.1 : Int), p.2, true⟩).current_best_dist = p.2
      · refine ⟨p, List.mem_cons_self _ _, ?_, heq.symm, ?_⟩
        · have := vfold_cam_of_dist_eq rest ⟨(p.1 : Int), p.2, true⟩ heq
          rw [this]
        · intro p' hp' _
          rcases List.mem_cons.mp hp' with hp' | hp'
          · subst hp'; exact le_refl _
          · exact le_of_lt (hp p' hp')
      · have hlt2 : (rest.foldl vstep ⟨(p.1 : Int), p.2, true⟩).current_best_dist < p.2 :=
          lt_of_le_of_ne (vfold_dist_le rest ⟨(p.1 : Int), p.2, true⟩) heq
        obtain ⟨q, hqmem, hcam, hqd, hleast⟩ := ih ⟨(p.1 : Int), p.2, true⟩ hrest hlt2
        refine ⟨q, List.mem_cons_of_mem _ hqmem, hcam, hqd, ?_⟩
        intro p' hp' hd
        rcases List.mem_cons.mp hp' with hp' | hp'
        · exfalso
          rw [hp'] at hd
          exact lt_irrefl _ (lt_of_lt_of_le hlt2 (le_of_eq hd))
        · exact hleast p' hp' hd
    · have ha : vstep a p = { a with found_match := true } := vstep_neg hcase
      rw [ha] at hlt ⊢
      obtain ⟨q, hqmem, hcam, hqd, hleast⟩ := ih { a with found_match := true } hrest hlt
      refine ⟨q, List.mem_cons_of_mem _ hqmem, hcam, hqd, ?_⟩
      intro p' hp' hd
      rcases List.mem_cons.mp hp' with hp' | hp'
      · exfalso
        rw [hp'] at hd
        rw [hd] at hcase
        exact hcase hlt
      · exact hleast p' hp' hd

/-! Lemmas about the status dict and the worker pass. -/

theorem dictGet_cons {α β : Type} [DecidableEq α] (k : α) (e : α × β) (rest : List (α × β)) :
    dictGet k (e :: rest) = if e.1 = k then some e.2 else dictGet k rest := rfl

theorem setFields_cons (name : String) (f : IdentityStatus → IdentityStatus)
    (e : String × IdentityStatus) (rest : PS) :
    setFields (e :: rest) name f
      = (if e.1 = name then (e.1, f e.2) else e) :: setFields rest name f := rfl

theorem dictGet_setFields_self (name : String) (f : IdentityStatus → IdentityStatus) :
    ∀ ps : PS, dictGet name (setFields ps name f) = (dictGet name ps).map f := by
  intro ps
  induction ps with
  | nil => rfl
  | cons e rest ih =>
    rw [setFields_cons]
    by_cases he : e.1 = name
    · simp [dictGet_cons, he]
    · simp [dictGet_cons, he, ih]

theorem dictGet_setFields_ne {n name : String} (hne : n ≠ name)
    (f : IdentityStatus → IdentityStatus) :
    ∀ ps : PS, dictGet n (setFields ps name f) = dictGet n ps := by
  intro ps
  induction ps with
  | nil => rfl
  | cons e rest ih =>
    rw [setFields_cons]
    by_cases he : e.1 = name
    · have hnm : ¬ name = n := fun h => hne h.symm
      simp [dictGet_cons, he, hnm, ih]
    · by_cases he2 : e.1 = n
      · have hnn : ¬ n = name := by
          rw [← he2]
          exact he
        simp [dictGet_cons, he2, hnn]
      · simp [dictGet_cons, he, he2, ih]

theorem setFields_keys (name : String) (f : IdentityStatus → IdentityStatus) :
    ∀ ps : PS, (setFields ps name f).map Prod.fst = ps.map Prod.fst := by
  intro ps
  induction ps with
  | nil => rfl
  | cons e rest ih =>
    rw [setFields_cons, List.map_cons, List.map_cons, ih]
    by_cases he : e.1 = name
    · simp [he]
    · simp [he]

theorem setFields_setFields (name : String) (f g : IdentityStatus → IdentityStatus) :
    ∀ ps : PS,
      setFields (setFields ps name f) name g = setFields ps name (fun s => g (f s)) := by
  intro ps
  induction ps with
  | nil => rfl
  | cons e rest ih =>
    rw [setFields_cons, setFields_cons, setFields_cons, ih]
    by_cases he : e.1 = name
    · simp [he]
    · simp [he]

theorem dictGet_of_mem_nodup :
    ∀ (ps : PS), (ps.map Prod.fst).Nodup → ∀ e ∈ ps, dictGet e.1 ps = some e.2 := by
  intro ps
  induction ps with
  | nil => intro _ e he; cases he
  | cons a rest ih =>
    intro hnd e he
    rw [List.map_cons, List.nodup_cons] at hnd
    rcases List.mem_cons.mp he with he | he
    · rw [he, dictGet_cons, if_pos rfl]
    · rw [dictGet_cons]
      have hne : ¬ a.1 = e.1 := by
        intro hc
        exact hnd.1 (hc ▸ (List.mem_map.mpr ⟨e, he, rfl⟩))
      rw [if_neg hne]
      exact ih hnd.2 e he

theorem isSome_dictGet_setFields (name m : String) (f : IdentityStatus → IdentityStatus)
    (ps : PS) (h : (dictGet m ps).isSome) : (dictGet m (setFields ps name f)).isSome := by
  by_cases hm : m = name
  · rw [hm] at h ⊢
    rw [dictGet_setFields_self]
    rcases Option.isSome_iff_exists.mp h with ⟨st, hst⟩
    rw [hst]
    rfl
  · rw [dictGet_setFields_ne hm]
    exact h

theorem process_nil (oracle : Oracle) (frames : List (Nat × Img)) (ps : PS) :
    process_multi_camera oracle frames [] ps = ps := rfl

theorem process_cons (oracle : Oracle) (frames : List (Nat × Img))
    (name : String) (rest : List String) (ps : PS) :
    process_multi_camera oracle frames (name :: rest) ps
      = match dictGet name ps with
        | none => ps
        | some st =>
          process_multi_camera oracle frames rest
            (setFields ps name
              (fun s => publishFields s (evalIdentity oracle frames st.ref_img))) := rfl

theorem process_eq_map (oracle : Oracle) (frames : List (Nat × Img)) :
    ∀ (names : List String) (ps : PS),
      (ps.map Prod.fst).Nodup → names.Nodup →
      (∀ n ∈ names, (dictGet n ps).isSome) →
      process_multi_camera oracle frames names ps
        = ps.map (fun e =>
            if e.1 ∈ names then
              (e.1, publishFields e.2 (evalIdentity oracle frames e.2.ref_img))
            else e) := by
  intro names
  induction names with
  | nil =>
    intro ps _ _ _
    rw [process_nil]
    simp
  | cons n rest ih =>
    intro ps hk hnd hw
    have hn : (dictGet n ps).isSome := hw n (List.mem_cons_self _ _)
    rcases Option.isSome_iff_exists.mp hn with ⟨st, hst⟩
    rw [List.nodup_cons] at hnd
    have hstep : process_multi_camera oracle frames (n :: rest) ps
        = process_multi_camera oracle frames rest
            (setFields ps n
              (fun s => publishFields s (evalIdentity oracle frames st.ref_img))) := by
      rw [process_cons, hst]
    rw [hstep]
    have hk' : ((setFields ps n
        (fun s => publishFields s (evalIdentity oracle frames st.ref_img))).map Prod.fst).Nodup := by
      rw [setFields_keys]
      exact hk
    have hw' : ∀ m ∈ rest, (dictGet m (setFields ps n
        (fun s => publishFields s (evalIdentity oracle frames st.ref_img)))).isSome := by
      intro m hm
      exact isSome_dictGet_setFields n m _ ps (hw m (List.mem_cons_of_mem _ hm))
    rw [ih _ hk' hnd.2 hw']
    unfold setFields
    rw [List.map_map]
    refine List.map_congr_left ?_
    intro e he
    by_cases hecase : e.1 = n
    · have hego : dictGet e.1 ps = some e.2 := dictGet_of_mem_nodup ps hk e he
      rw [hecase] at hego
      rw [hst] at hego
      have hest : e.2 = st := by
        injection hego with h2
        exact h2.symm
      dsimp only [Function.comp]
      rw [if_pos hecase]
      dsimp only
      have hnotrest : ¬ e.1 ∈ rest := by
        rw [hecase]
        exact hnd.1
      rw [if_neg hnotrest]
      have hmem : e.1 ∈ n :: rest := by
        rw [hecase]
        exact List.mem_cons_self _ _
      rw [if_pos hmem, hest]
    · dsimp only [Function.comp]
      rw [if_neg hecase]
      by_cases her : e.1 ∈ rest
      · rw [if_pos her, if_pos (List.mem_cons_of_mem _ her)]
      · have hnotc : ¬ e.1 ∈ n :: rest := by
          intro hc
          rcases List.mem_cons.mp hc with hc | hc
          · exact hecase hc
          · exact her hc
        rw [if_neg her, if_neg hnotc]

theorem dictGet_map_if (names : List String)
    (T : IdentityStatus → IdentityStatus) (name : String) (hm : name ∈ names) :
    ∀ ps : PS,
      dictGet name (ps.map (fun e => if e.1 ∈ names then (e.1, T e.2) else e))
        = (dictGet name ps).map T := by
  intro ps
  induction ps with
  | nil => rfl
  | cons e rest ih =>
    rw [List.map_cons]
    by_cases hmem : e.1 ∈ names
    · rw [if_pos hmem, dictGet_cons, dictGet_cons]
      by_cases he : e.1 = name
      · simp [he]
      · simp [he, ih]
    · rw [if_neg hmem, dictGet_cons, dictGet_cons]
      by_cases he : e.1 = name
      · exact absurd (show e.1 ∈ names by rw [he]; exact hm) hmem
      · simp [he, ih]

theorem lookup_process (oracle : Oracle) (frames : List (Nat × Img))
    (names : List String) (ps : PS) (name : String) (st : IdentityStatus)
    (hk : (ps.map Prod.fst).Nodup) (hnd : names.Nodup)
    (hw : ∀ n ∈ names, (dictGet n ps).isSome)
    (hm : name ∈ names) (hst : dictGet name ps = some st) :
    dictGet name (process_multi_camera oracle frames names ps)
      = some (publishFields st (evalIdentity oracle frames st.ref_img)) := by
  rw [process_eq_map oracle frames names ps hk hnd hw]
  have h2 := dictGet_map_if names
    (fun s => publishFields s (evalIdentity oracle frames s.ref_img)) name hm ps
  rw [hst] at h2
  exact h2

theorem vfold_cam_mem : ∀ (vs : List (Nat × ℚ)) (a : Acc),
    (vs.foldl vstep a).current_best_dist < a.current_best_dist →
    ∃ q ∈ vs, (vs.foldl vstep a).current_best_cam = (q.1 : Int)
      ∧ q.2 = (vs.foldl vstep a).current_best_dist := by
  intro vs
  induction vs with
  | nil => intro a h; exact absurd h (lt_irrefl _)
  | cons p rest ih =>
    intro a hlt
    rw [List.foldl_cons] at hlt ⊢
    by_cases hcase : p.2 < a.current_best_dist
    · rw [vstep_pos hcase] at hlt ⊢
      by_cases heq : (rest.foldl vstep ⟨(p.1 : Int), p.2, true⟩).current_best_dist = p.2
      · refine ⟨p, List.mem_cons_self _ _, ?_, heq.symm⟩
        have := vfold_cam_of_dist_eq rest ⟨(p.1 : Int), p.2, true⟩ heq
        rw [this]
      · have hlt2 : (rest.foldl vstep ⟨(p.1 : Int), p.2, true⟩).current_best_dist < p.2 :=
          lt_of_le_of_ne (vfold_dist_le rest ⟨(p.1 : Int), p.2, true⟩) heq
        obtain ⟨q, hqmem, hcam, hqd⟩ := ih ⟨(p.1 : Int), p.2, true⟩ hlt2
        exact ⟨q, List.mem_cons_of_mem _ hqmem, hcam, hqd⟩
    · have ha : vstep a p = { a with found_match := true } := vstep_neg hcase
      rw [ha] at hlt ⊢
      obtain ⟨q, hqmem, hcam, hqd⟩ := ih { a with found_match := true } hlt
      exact ⟨q, List.mem_cons_of_mem _ hqmem, hcam, hqd⟩

theorem verifiedList_mem_keys (oracle : Oracle) (ref : Img) :
    ∀ (frames : List (Nat × Img)) (q : Nat × ℚ),
      q ∈ verifiedList oracle ref frames → ∃ p ∈ frames, p.1 = q.1 := by
  intro frames
  induction frames with
  | nil => intro q hq; cases hq
  | cons p rest ih =>
    intro q hq
    unfold verifiedList at hq
    rw [List.filterMap_cons] at hq
    cases h : oracle p.2 ref with
    | ok v d =>
      cases v
      · rw [h] at hq
        obtain ⟨p', hp', he⟩ := ih q hq
        exact ⟨p', List.mem_cons_of_mem _ hp', he⟩
      · rw [h] at hq
        rcases List.mem_cons.mp hq with hq | hq
        · exact ⟨p, List.mem_cons_self _ _, by rw [hq]⟩
        · obtain ⟨p', hp', he⟩ := ih q hq
          exact ⟨p', List.mem_cons_of_mem _ hp', he⟩
    | err =>
      rw [h] at hq
      obtain ⟨p', hp', he⟩ := ih q hq
      exact ⟨p', List.mem_cons_of_mem _ hp', he⟩

theorem verifiedList_pairwise (oracle : Oracle) (ref : Img) :
    ∀ (frames : List (Nat × Img)),
      frames.Pairwise (fun x y => x.1 < y.1) →
      (verifiedList oracle ref frames).Pairwise (fun x y => x.1 < y.1) := by
  intro frames
  induction frames with
  | nil => intro _; exact List.Pairwise.nil
  | cons p rest ih =>
    intro hpw
    rcases List.pairwise_cons.mp hpw with ⟨hp, hrest⟩
    unfold verifiedList
    rw [List.filterMap_cons]
    cases h : oracle p.2 ref with
    | ok v d =>
      cases v
      · exact ih hrest
      · refine List.pairwise_cons.mpr ⟨?_, ih hrest⟩
        intro q hq
        obtain ⟨p', hp', he⟩ := verifiedList_mem_keys oracle ref rest q hq
        show p.1 < q.1
        rw [← he]
        exact hp p' hp'
    | err => exact ih hrest

theorem keys_map_if (names : List String) (T : IdentityStatus → IdentityStatus) :
    ∀ ps : PS,
      ((ps.map (fun e => if e.1 ∈ names then (e.1, T e.2) else e)).map Prod.fst)
        = ps.map Prod.fst := by
  intro ps
  induction ps with
  | nil => rfl
  | cons e rest ih =>
    rw [List.map_cons, List.map_cons, List.map_cons, ih]
    by_cases he : e.1 ∈ names
    · rw [if_pos he]
    · rw [if_neg he]

theorem map_if_comp (names : List String) (T : IdentityStatus → IdentityStatus)
    (hT : ∀ s, T (T s) = T s) :
    ∀ ps : PS,
      ((ps.map (fun e => if e.1 ∈ names then (e.1, T e.2) else e)).map
          (fun e => if e.1 ∈ names then (e.1, T e.2) else e))
        = ps.map (fun e => if e.1 ∈ names then (e.1, T e.2) else e) := by
  intro ps
  induction ps with
  | nil => rfl
  | cons e rest ih =>
    rw [List.map_cons, List.map_cons, ih]
    by_cases he : e.1 ∈ names
    · simp [he, hT]
    · simp [he]

/-! Lemmas about the field-write trace of a pass. -/

theorem fieldWrites_foldl (ps : PS) (name : String) (a : Acc) :
    (fieldWritesOf name a).foldl applyW ps = setFields ps name (fun s => publishFields s a) := by
  show setFields (setFields (setFields ps name _) name _) name _ = _
  rw [setFields_setFields, setFields_setFields]
  rfl

theorem passWrites_cons (oracle : Oracle) (frames : List (Nat × Img))
    (name : String) (rest : List String) (ps : PS) :
    passWrites oracle frames (name :: rest) ps
      = match dictGet name ps with
        | none => []
        | some st =>
          fieldWritesOf name (evalIdentity oracle frames st.ref_img) ++
            passWrites oracle frames rest
              (setFields ps name
                (fun s => publishFields s (evalIdentity oracle frames st.ref_img))) := rfl

theorem passWrites_sound (oracle : Oracle) (frames : List (Nat × Img)) :
    ∀ (names : List String) (ps : PS),
      (passWrites oracle frames names ps).foldl applyW ps
        = process_multi_camera oracle frames names ps := by
  intro names
  induction names with
  | nil => intro ps; rfl
  | cons n rest ih =>
    intro ps
    rw [passWrites_cons, process_cons]
    cases hst : dictGet n ps with
    | none => rfl
    | some st =>
      simp only
      rw [List.foldl_append, fieldWrites_foldl]
      exact ih _

theorem passWrites_names (oracle : Oracle) (frames : List (Nat × Img)) :
    ∀ (names : List String) (ps : PS) (w : String × FieldW),
      w ∈ passWrites oracle frames names ps → w.1 ∈ names := by
  intro names
  induction names with
  | nil => intro ps w hw; cases hw
  | cons n rest ih =>
    intro ps w hw
    rw [passWrites_cons] at hw
    cases hst : dictGet n ps with
    | none =>
      rw [hst] at hw
      cases hw
    | some st =>
      rw [hst] at hw
      simp only at hw
      rcases List.mem_append.mp hw with h | h
      · have hwn : w.1 = n := by
          rcases List.mem_cons.mp h with h | h
          · rw [h]
          rcases List.mem_cons.mp h with h | h
          · rw [h]
          rcases List.mem_cons.mp h with h | h
          · rw [h]
          · cases h
        rw [hwn]
        exact List.mem_cons_self _ _
      · exact List.mem_cons_of_mem _ (ih _ w h)

theorem applyFieldW_ref (w : FieldW) (st : IdentityStatus) :
    (applyFieldW w st).ref_img = st.ref_img := by
  cases w <;> rfl

theorem foldl_applyW_keys : ∀ (ws : List (String × FieldW)) (ps : PS),
    (ws.foldl applyW ps).map Prod.fst = ps.map Prod.fst := by
  intro ws
  induction ws with
  | nil => intro ps; rfl
  | cons w rest ih =>
    intro ps
    rw [List.foldl_cons, ih (applyW ps w)]
    exact setFields_keys w.1 (applyFieldW w.2) ps

theorem dictGet_applyW_ref (ps : PS) (w : String × FieldW) (n : String) :
    (dictGet n (applyW ps w)).map IdentityStatus.ref_img
      = (dictGet n ps).map IdentityStatus.ref_img := by
  by_cases h : n = w.1
  · rw [h]
    show (dictGet w.1 (setFields ps w.1 (applyFieldW w.2))).map _ = _
    rw [dictGet_setFields_self]
    cases dictGet w.1 ps with
    | none => rfl
    | some st => simp [applyFieldW_ref]
  · show (dictGet n (setFields ps w.1 (applyFieldW w.2))).map _ = _
    rw [dictGet_setFields_ne h]

theorem foldl_applyW_ref : ∀ (ws : List (String × FieldW)) (ps : PS) (n : String),
    (dictGet n (ws.foldl applyW ps)).map IdentityStatus.ref_img
      = (dictGet n ps).map IdentityStatus.ref_img := by
  intro ws
  induction ws with
  | nil => intro ps n; rfl
  | cons w rest ih =>
    intro ps n
    rw [List.foldl_cons, ih (applyW ps w) n]
    exact dictGet_applyW_ref ps w n

theorem foldl_applyW_untouched : ∀ (ws : List (String × FieldW)) (ps : PS) (n : String),
    (∀ w ∈ ws, w.1 ≠ n) → dictGet n (ws.foldl applyW ps) = dictGet n ps := by
  intro ws
  induction ws with
  | nil => intro ps n _; rfl
  | cons w rest ih =>
    intro ps n hws
    rw [List.foldl_cons, ih (applyW ps w) n (fun x hx => hws x (List.mem_cons_of_mem _ hx))]
    show dictGet n (setFields ps w.1 (applyFieldW w.2)) = _
    exact dictGet_setFields_ne (fun h => hws w (List.mem_cons_self _ _) h.symm) _ ps

/-! Lemmas about the dispatch state machine. -/

theorem reachable_inFlight {s : LoopState} (h : ReachableLoop s) :
    s.inFlight = cond s.is_processing 1 0 := by
  induction h with
  | init => rfl
  | step s e hs ih =>
    cases e with
    | complete =>
      show s.inFlight - 1 = 0
      cases hp : s.is_processing
      · rw [hp] at ih
        have ih0 : s.inFlight = 0 := ih
        omega
      · rw [hp] at ih
        have ih1 : s.inFlight = 1 := ih
        omega
    | tick v =>
      cases v with
      | false => exact ih
      | true =>
        by_cases hg : s.counter % 30 = 0 ∧ s.is_processing = false
        · have hred : loopStep s (.tick true)
              = { counter := s.counter + 1, is_processing := true, inFlight := s.inFlight + 1 } := by
            show (if s.counter % 30 = 0 ∧ s.is_processing = false then _ else _) = _
            rw [if_pos hg]
          rw [hred]
          rw [hg.2] at ih
          have ih0 : s.inFlight = 0 := ih
          show s.inFlight + 1 = 1
          omega
        · have hred : loopStep s (.tick true) = { s with counter := s.counter + 1 } := by
            show (if s.counter % 30 = 0 ∧ s.is_processing = false then _ else _) = _
            rw [if_neg hg]
          rw [hred]
          exact ih

/-! Lemmas about the capture step. -/

theorem readAll_cams : ∀ (cs : List Cam) (i : Nat),
    (readAll i cs).1 = cs.map (fun c => { c with cursor := c.cursor + 1 }) := by
  intro cs
  induction cs with
  | nil => intro i; rfl
  | cons c rest ih =>
    intro i
    show ({ c with cursor := c.cursor + 1 } :: (readAll (i + 1) rest).1) = _
    rw [List.map_cons, ih (i + 1)]

theorem readAll_keys_ge : ∀ (cs : List Cam) (i : Nat) (p : Nat × Img),
    p ∈ (readAll i cs).2 → i ≤ p.1 := by
  intro cs
  induction cs with
  | nil => intro i p hp; cases hp
  | cons c rest ih =>
    intro i p hp
    have hsnd : (readAll i (c :: rest)).2
        = match c.stream c.cursor with
          | some f => (i, f) :: (readAll (i + 1) rest).2
          | none => (readAll (i + 1) rest).2 := rfl
    rw [hsnd] at hp
    cases hs : c.stream c.cursor with
    | none =>
      rw [hs] at hp
      exact le_trans (Nat.le_succ i) (ih (i + 1) p hp)
    | some f =>
      rw [hs] at hp
      rcases List.mem_cons.mp hp with hp | hp
      · rw [hp]
      · exact le_trans (Nat.le_succ i) (ih (i + 1) p hp)

theorem dictGet_eq_none_of_keys {α β : Type} [DecidableEq α] (k : α) :
    ∀ (l : List (α × β)), (∀ p ∈ l, ¬ p.1 = k) → dictGet k l = none := by
  intro l
  induction l with
  | nil => intro _; rfl
  | cons e rest ih =>
    intro h
    rw [dictGet_cons, if_neg (h e (List.mem_cons_self _ _))]
    exact ih (fun p hp => h p (List.mem_cons_of_mem _ hp))

/-! Lemmas about startup. -/

theorem loadPeople_valid : ∀ (cfg : List (String × Option Img)),
    (loadPeople cfg).2 = (cfg.filter (fun e => e.2.isSome)).map Prod.fst := by
  intro cfg
  induction cfg with
  | nil => rfl
  | cons e rest ih =>
    rcases e with ⟨name, img?⟩
    cases img? with
    | some img =>
      show name :: (loadPeople rest).2 = _
      rw [ih]
      simp [List.filter_cons]
    | none =>
      show (loadPeople rest).2 = _
      rw [ih]
      simp [List.filter_cons]

/-! Claim theorems. -/

/-- C5: for every identity for which no camera in the pass's snapshot
produced a verified oracle result, after that pass the identity's published
`is_match` is `false`, its published best camera index is `-1`, and its
published distance is the worst-possible sentinel value `10.0`. -/
theorem c5_no_verified_camera (oracle : Oracle) (frames : List (Nat × Img))
    (names : List String) (ps : PS) (name : String) (st : IdentityStatus)
    (hk : (ps.map Prod.fst).Nodup) (hnd : names.Nodup)
    (hw : ∀ n ∈ names, (dictGet n ps).isSome)
    (hm : name ∈ names) (hst : dictGet name ps = some st)
    (hvs : verifiedList oracle st.ref_img frames = []) :
    dictGet name (process_multi_camera oracle frames names ps)
      = some { best_cam_index := -1, distance := 10, is_match := false, ref_img := st.ref_img } := by
  rw [lookup_process oracle frames names ps name st hk hnd hw hm hst]
  rw [evalIdentity_eq_vfold, hvs]
  rfl

/-- C5 (witness): in the two-identity fixture, identity `B` is verified by
no camera, so its published status after the pass is the initial sentinel
record. -/
theorem c5_witness :
    verifiedList wOracle statusB.ref_img wFrames = []
    ∧ dictGet "B" (process_multi_camera wOracle wFrames ["A", "B"] wPS)
        = some { best_cam_index := -1, distance := 10, is_match := false,
                 ref_img := statusB.ref_img } :=
  ⟨by decide,
   c5_no_verified_camera wOracle wFrames ["A", "B"] wPS "B" statusB
     (by decide) (by decide) (by decide) (by decide) (by decide) (by decide)⟩

/-- C1 (counterexample): with a single camera whose verified distance is 12,
at or beyond the 10.0 sentinel the accumulator is never replaced, so the
published distance is 10 (not the verified minimum 12) and the published
best camera index is -1 (not camera 0): the claim as stated fails. -/
theorem c1_counterexample :
    verifiedList oracle12 statusA.ref_img oneFrame = [(0, 12)]
    ∧ dictGet "A" (process_multi_camera oracle12 oneFrame ["A"] onePS)
        = some { best_cam_index := -1, distance := 10, is_match := true, ref_img := 0 }
    ∧ dictGet "A" (process_multi_camera oracle12 oneFrame ["A"] onePS)
        ≠ some { best_cam_index := 0, distance := 12, is_match := true, ref_img := 0 } := by
  refine ⟨by decide, by decide, by decide⟩

/-- C1 (amended): for every identity with at least one verified camera
whose distance is strictly below the 10.0 sentinel, after the pass the
identity's published distance is the minimum verified distance (a lower
bound of all verified distances, and attained by one of them) and the
published best camera index is the lowest-indexed camera achieving that
minimum, the snapshot being in ascending camera-index order. -/
theorem c1_min_distance_lowest_camera (oracle : Oracle) (frames : List (Nat × Img))
    (names : List String) (ps : PS) (name : String) (st : IdentityStatus)
    (hk : (ps.map Prod.fst).Nodup) (hnd : names.Nodup)
    (hw : ∀ n ∈ names, (dictGet n ps).isSome)
    (hm : name ∈ names) (hst : dictGet name ps = some st)
    (hsorted : frames.Pairwise (fun x y => x.1 < y.1))
    (hbelow : ∃ q ∈ verifiedList oracle st.ref_img frames, q.2 < 10) :
    ∃ st', dictGet name (process_multi_camera oracle frames names ps) = some st'
      ∧ st'.is_match = true
      ∧ (∀ p ∈ verifiedList oracle st.ref_img frames, st'.distance ≤ p.2)
      ∧ ∃ q ∈ verifiedList oracle st.ref_img frames,
          q.2 = st'.distance ∧ st'.best_cam_index = (q.1 : Int)
          ∧ ∀ p ∈ verifiedList oracle st.ref_img frames, p.2 = st'.distance → q.1 ≤ p.1 := by
  have hlook := lookup_process oracle frames names ps name st hk hnd hw hm hst
  have heval := evalIdentity_eq_vfold oracle frames st.ref_img
  obtain ⟨q0, hq0, hq0lt⟩ := hbelow
  refine ⟨publishFields st (evalIdentity oracle frames st.ref_img), hlook, ?_, ?_, ?_⟩
  · show (evalIdentity oracle frames st.ref_img).found_match = true
    rw [heval, vfold_found]
    cases hvs : verifiedList oracle st.ref_img frames with
    | nil => rw [hvs] at hq0; cases hq0
    | cons v vrest => rfl
  · intro p hp
    show (evalIdentity oracle frames st.ref_img).current_best_dist ≤ p.2
    rw [heval]
    exact vfold_dist_le_mem _ initAcc p hp
  · have hdlt : ((verifiedList oracle st.ref_img frames).foldl vstep initAcc).current_best_dist
        < initAcc.current_best_dist := by
      exact lt_of_le_of_lt (vfold_dist_le_mem _ initAcc q0 hq0) hq0lt
    obtain ⟨q, hqmem, hcam, hqd, hleast⟩ :=
      vfold_cam_spec (verifiedList oracle st.ref_img frames) initAcc
        (verifiedList_pairwise oracle st.ref_img frames hsorted) hdlt
    refine ⟨q, hqmem, ?_, ?_, ?_⟩
    · show q.2 = (evalIdentity oracle frames st.ref_img).current_best_dist
      rw [heval]
      exact hqd
    · show (evalIdentity oracle frames st.ref_img).current_best_cam = (q.1 : Int)
      rw [heval]
      exact hcam
    · intro p hp hpd
      refine hleast p hp ?_
      show p.2 = ((verifiedList oracle st.ref_img frames).foldl vstep initAcc).current_best_dist
      rw [← heval]
      exact hpd

/-- C1 (witness): identity `A` is verified at distances 2 and 3, both below
the sentinel; the amended claim applies and yields the published minimum. -/
theorem c1_witness :
    (∃ q ∈ verifiedList wOracle statusA.ref_img wFrames, q.2 < 10)
    ∧ ∃ st', dictGet "A" (process_multi_camera wOracle wFrames ["A", "B"] wPS) = some st'
      ∧ st'.is_match = true
      ∧ (∀ p ∈ verifiedList wOracle statusA.ref_img wFrames, st'.distance ≤ p.2)
      ∧ ∃ q ∈ verifiedList wOracle statusA.ref_img wFrames,
          q.2 = st'.distance ∧ st'.best_cam_index = (q.1 : Int)
          ∧ ∀ p ∈ verifiedList wOracle statusA.ref_img wFrames, p.2 = st'.distance → q.1 ≤ p.1 :=
  ⟨by decide,
   c1_min_distance_lowest_camera wOracle wFrames ["A", "B"] wPS "A" statusA
     (by decide) (by decide) (by decide) (by decide) (by decide) (by decide) (by decide)⟩

/-- C2 (counterexample): with a single camera whose verified distance is 11,
the published `is_match` is `true` while the published best camera index is
-1, violating the claimed invariant that a true match flag implies a
non-negative best camera index whose distance is the verified minimum. -/
theorem c2_counterexample :
    verifiedList oracle11 statusA.ref_img oneFrame = [(0, 11)]
    ∧ dictGet "A" (process_multi_camera oracle11 oneFrame ["A"] onePS)
        = some { best_cam_index := -1, distance := 10, is_match := true, ref_img := 0 }
    ∧ ¬ (0 : Int) ≤ -1 := by
  refine ⟨by decide, by decide, by decide⟩

/-- C2 (amended): after a pass, a published `is_match = false` implies the
published best camera index is -1, unconditionally; and provided some
verified distance lies strictly below the 10.0 sentinel, a published
`is_match = true` implies a non-negative best camera index and a published
distance equal to the minimum verified distance. -/
theorem c2_invariant (oracle : Oracle) (frames : List (Nat × Img))
    (names : List String) (ps : PS) (name : String) (st : IdentityStatus)
    (hk : (ps.map Prod.fst).Nodup) (hnd : names.Nodup)
    (hw : ∀ n ∈ names, (dictGet n ps).isSome)
    (hm : name ∈ names) (hst : dictGet name ps = some st) :
    ∃ st', dictGet name (process_multi_camera oracle frames names ps) = some st'
      ∧ (st'.is_match = false → st'.best_cam_index = -1)
      ∧ ((∃ q ∈ verifiedList oracle st.ref_img frames, q.2 < 10) → st'.is_match = true →
          (0 : Int) ≤ st'.best_cam_index
          ∧ (∀ p ∈ verifiedList oracle st.ref_img frames, st'.distance ≤ p.2)
          ∧ ∃ q ∈ verifiedList oracle st.ref_img frames, st'.distance = q.2) := by
  have hlook := lookup_process oracle frames names ps name st hk hnd hw hm hst
  have heval := evalIdentity_eq_vfold oracle frames st.ref_img
  refine ⟨publishFields st (evalIdentity oracle frames st.ref_img), hlook, ?_, ?_⟩
  · intro hfalse
    have hfound : (evalIdentity oracle frames st.ref_img).found_match = false := hfalse
    rw [heval, vfold_found] at hfound
    cases hvs : verifiedList oracle st.ref_img frames with
    | nil =>
      show (evalIdentity oracle frames st.ref_img).current_best_cam = -1
      rw [heval, hvs]
      rfl
    | cons v vrest =>
      exfalso
      rw [hvs] at hfound
      simp at hfound
  · intro hbelow _
    obtain ⟨q0, hq0, hq0lt⟩ := hbelow
    have hdlt : ((verifiedList oracle st.ref_img frames).foldl vstep initAcc).current_best_dist
        < initAcc.current_best_dist :=
      lt_of_le_of_lt (vfold_dist_le_mem _ initAcc q0 hq0) hq0lt
    obtain ⟨q, hqmem, hcam, hqd⟩ := vfold_cam_mem (verifiedList oracle st.ref_img frames) initAcc hdlt
    refine ⟨?_, ?_, ⟨q, hqmem, ?_⟩⟩
    · show (0 : Int) ≤ (evalIdentity oracle frames st.ref_img).current_best_cam
      rw [heval, hcam]
      exact Int.natCast_nonneg q.1
    · intro p hp
      show (evalIdentity oracle frames st.ref_img).current_best_dist ≤ p.2
      rw [heval]
      exact vfold_dist_le_mem _ initAcc p hp
    · show (evalIdentity oracle frames st.ref_img).current_best_dist = q.2
      rw [heval]
      exact hqd.symm

/-- C2 (witness): identity `A` is verified at distances 2 and 3, below the
sentinel, so the amended invariant applies to its published status. -/
theorem c2_witness :
    ∃ st', dictGet "A" (process_multi_camera wOracle wFrames ["A", "B"] wPS) = some st'
      ∧ (st'.is_match = false → st'.best_cam_index = -1)
      ∧ ((∃ q ∈ verifiedList wOracle statusA.ref_img wFrames, q.2 < 10) → st'.is_match = true →
          (0 : Int) ≤ st'.best_cam_index
          ∧ (∀ p ∈ verifiedList wOracle statusA.ref_img wFrames, st'.distance ≤ p.2)
          ∧ ∃ q ∈ verifiedList wOracle statusA.ref_img wFrames, st'.distance = q.2) :=
  c2_invariant wOracle wFrames ["A", "B"] wPS "A" statusA
    (by decide) (by decide) (by decide) (by decide) (by decide)

/-- C3 (counterexample): the worker publishes identity `A`'s status in three
separate field writes while the pass runs; after the first write (the
`is_match` store of line 115) a concurrent read returns a record that mixes
the in-flight pass's match flag with the previous pass's camera index and
distance — it equals neither the pre-pass record nor the completed-pass
record, so reads during a running pass are not limited to the last
completed pass's values. -/
theorem c3_counterexample :
    dictGet "A" (((passWrites oracle2 oneFrame ["A"] onePS).take 1).foldl applyW onePS)
      = some { best_cam_index := -1, distance := 10, is_match := true, ref_img := 0 }
    ∧ dictGet "A" onePS
        = some { best_cam_index := -1, distance := 10, is_match := false, ref_img := 0 }
    ∧ dictGet "A" (process_multi_camera oracle2 oneFrame ["A"] onePS)
        = some { best_cam_index := 0, distance := 2, is_match := true, ref_img := 0 }
    ∧ dictGet "A" (((passWrites oracle2 oneFrame ["A"] onePS).take 1).foldl applyW onePS)
        ≠ dictGet "A" onePS
    ∧ dictGet "A" (((passWrites oracle2 oneFrame ["A"] onePS).take 1).foldl applyW onePS)
        ≠ dictGet "A" (process_multi_camera oracle2 oneFrame ["A"] onePS) := by
  refine ⟨by decide, by decide, by decide, by decide, by decide⟩

/-- C3 (amended): status publication is not an atomic whole-record
replacement: the pass issues a sequence of single-field writes (three per
identity, issued while the pass is still running), and a concurrent read
observes the dict after an arbitrary prefix of that sequence; applying the
full write sequence in program order yields exactly the completed pass's
statuses. -/
theorem c3_prefix_write_model (oracle : Oracle) (frames : List (Nat × Img))
    (names : List String) (ps : PS) :
    (passWrites oracle frames names ps).foldl applyW ps
      = process_multi_camera oracle frames names ps :=
  passWrites_sound oracle frames names ps

/-- C4: at every reachable state of the tick loop at most one resolution
pass is in flight; a valid tick that reaches the dispatch interval while a
pass is running only advances the counter (the trigger is dropped, nothing
is queued); and a tick starts a pass exactly when it is valid, the counter
is at the interval, and no pass is running. -/
theorem c4_at_most_one_pass (s : LoopState) (h : ReachableLoop s) :
    s.inFlight ≤ 1
    ∧ (s.is_processing = true →
        loopStep s (.tick true) = { s with counter := s.counter + 1 })
    ∧ ∀ v : Bool, (loopStep s (.tick v)).inFlight = s.inFlight + 1
        ↔ (v = true ∧ s.counter % 30 = 0 ∧ s.is_processing = false) := by
  have hinv := reachable_inFlight h
  refine ⟨?_, ?_, ?_⟩
  · cases hp : s.is_processing
    · rw [hp] at hinv
      have h0 : s.inFlight = 0 := hinv
      omega
    · rw [hp] at hinv
      have h1 : s.inFlight = 1 := hinv
      omega
  · intro hp
    have hg : ¬ (s.counter % 30 = 0 ∧ s.is_processing = false) := by
      intro hc
      rw [hp] at hc
      exact absurd hc.2 (by simp)
    show (if s.counter % 30 = 0 ∧ s.is_processing = false then
        ({ counter := s.counter + 1, is_processing := true, inFlight := s.inFlight + 1 } : LoopState)
      else { s with counter := s.counter + 1 }) = { s with counter := s.counter + 1 }
    rw [if_neg hg]
  · intro v
    cases v with
    | false =>
      constructor
      · intro habs
        have habs2 : s.inFlight = s.inFlight + 1 := habs
        exact absurd habs2 (by omega)
      · rintro ⟨hfalse, _, _⟩
        cases hfalse
    | true =>
      by_cases hg : s.counter % 30 = 0 ∧ s.is_processing = false
      · have hred : loopStep s (.tick true)
            = { counter := s.counter + 1, is_processing := true, inFlight := s.inFlight + 1 } := by
          show (if s.counter % 30 = 0 ∧ s.is_processing = false then
              ({ counter := s.counter + 1, is_processing := true,
                 inFlight := s.inFlight + 1 } : LoopState)
            else { s with counter := s.counter + 1 }) = _
          rw [if_pos hg]
        rw [hred]
        constructor
        · intro _
          exact ⟨rfl, hg⟩
        · intro _
          rfl
      · have hred : loopStep s (.tick true) = { s with counter := s.counter + 1 } := by
          show (if s.counter % 30 = 0 ∧ s.is_processing = false then
              ({ counter := s.counter + 1, is_processing := true,
                 inFlight := s.inFlight + 1 } : LoopState)
            else { s with counter := s.counter + 1 }) = _
          rw [if_neg hg]
        rw [hred]
        constructor
        · intro habs
          have habs2 : s.inFlight = s.inFlight + 1 := habs
          exact absurd habs2 (by omega)
        · rintro ⟨_, hc⟩
          exact absurd hc hg

/-- C4 (witness): the claim instantiated at the initial loop state. -/
theorem c4_witness :
    (⟨0, false, 0⟩ : LoopState).inFlight ≤ 1
    ∧ ((⟨0, false, 0⟩ : LoopState).is_processing = true →
        loopStep ⟨0, false, 0⟩ (.tick true)
          = { (⟨0, false, 0⟩ : LoopState) with counter := (⟨0, false, 0⟩ : LoopState).counter + 1 })
    ∧ ∀ v : Bool, (loopStep ⟨0, false, 0⟩ (.tick v)).inFlight
          = (⟨0, false, 0⟩ : LoopState).inFlight + 1
        ↔ (v = true ∧ (⟨0, false, 0⟩ : LoopState).counter % 30 = 0
            ∧ (⟨0, false, 0⟩ : LoopState).is_processing = false) :=
  c4_at_most_one_pass ⟨0, false, 0⟩ ReachableLoop.init

/-- C6: an oracle error on one (identity, camera) pair leaves that
identity's camera loop equal to the loop over the snapshot with the failing
pair removed (the pair neither touches the accumulator nor stops the scan),
and the pass still publishes every identity's status, computed from its own
reference image, so there is no pass-wide abort. -/
theorem c6_oracle_error_isolated (oracle : Oracle) (ref : Img)
    (j : Nat) (fj : Img) (pre post : List (Nat × Img))
    (herr : oracle fj ref = .err) :
    evalIdentity oracle (pre ++ (j, fj) :: post) ref = evalIdentity oracle (pre ++ post) ref
    ∧ ∀ (frames : List (Nat × Img)) (names : List String) (ps : PS)
        (name : String) (st : IdentityStatus),
        (ps.map Prod.fst).Nodup → names.Nodup →
        (∀ n ∈ names, (dictGet n ps).isSome) →
        name ∈ names → dictGet name ps = some st →
        dictGet name (process_multi_camera oracle frames names ps)
          = some (publishFields st (evalIdentity oracle frames st.ref_img)) := by
  constructor
  · unfold evalIdentity
    rw [List.foldl_append, List.foldl_append, List.foldl_cons]
    rw [evalPair_err herr]
  · intro frames names ps name st hk hnd hw hm hst
    exact lookup_process oracle frames names ps name st hk hnd hw hm hst

/-- C6 (witness): the oracle errs on camera 1's frame only; the camera loop
over cameras 0, 1, 2 equals the loop over cameras 0 and 2. -/
theorem c6_witness :
    wOracleErr 1 0 = OracleResult.err
    ∧ (evalIdentity wOracleErr ([(0, 3)] ++ (1, 1) :: [(2, 4)]) 0
          = evalIdentity wOracleErr ([(0, 3)] ++ [(2, 4)]) 0
      ∧ ∀ (frames : List (Nat × Img)) (names : List String) (ps : PS)
          (name : String) (st : IdentityStatus),
          (ps.map Prod.fst).Nodup → names.Nodup →
          (∀ n ∈ names, (dictGet n ps).isSome) →
          name ∈ names → dictGet name ps = some st →
          dictGet name (process_multi_camera wOracleErr frames names ps)
            = some (publishFields st (evalIdentity wOracleErr frames st.ref_img))) :=
  ⟨by decide, c6_oracle_error_isolated wOracleErr 0 1 1 [(0, 3)] [(2, 4)] (by decide)⟩

/-- C7: re-running a pass on the same frame snapshot with the same oracle
publishes identical statuses: a second identical pass leaves the status
dict produced by the first pass unchanged. -/
theorem c7_idempotent (oracle : Oracle) (frames : List (Nat × Img))
    (names : List String) (ps : PS)
    (hk : (ps.map Prod.fst).Nodup) (hnd : names.Nodup)
    (hw : ∀ n ∈ names, (dictGet n ps).isSome) :
    process_multi_camera oracle frames names (process_multi_camera oracle frames names ps)
      = process_multi_camera oracle frames names ps := by
  have h1 := process_eq_map oracle frames names ps hk hnd hw
  have hkeq : (process_multi_camera oracle frames names ps).map Prod.fst = ps.map Prod.fst := by
    rw [h1]
    exact keys_map_if names (fun s => publishFields s (evalIdentity oracle frames s.ref_img)) ps
  have hk1 : ((process_multi_camera oracle frames names ps).map Prod.fst).Nodup := by
    rw [hkeq]
    exact hk
  have hw1 : ∀ n ∈ names, (dictGet n (process_multi_camera oracle frames names ps)).isSome := by
    intro n hn
    have hmap := dictGet_map_if names
      (fun s => publishFields s (evalIdentity oracle frames s.ref_img)) n hn ps
    rw [h1, hmap]
    rcases Option.isSome_iff_exists.mp (hw n hn) with ⟨v, hv⟩
    rw [hv]
    rfl
  have h2 := process_eq_map oracle frames names
    (process_multi_camera oracle frames names ps) hk1 hnd hw1
  rw [h2, h1]
  exact map_if_comp names (fun s => publishFields s (evalIdentity oracle frames s.ref_img))
    (fun s => rfl) ps

/-- C7 (witness): the idempotence theorem at the two-identity fixture. -/
theorem c7_witness :
    process_multi_camera wOracle wFrames ["A", "B"]
        (process_multi_camera wOracle wFrames ["A", "B"] wPS)
      = process_multi_camera wOracle wFrames ["A", "B"] wPS :=
  c7_idempotent wOracle wFrames ["A", "B"] wPS (by decide) (by decide) (by decide)

/-- C8 (counterexample): with every configured reference image failing to
load, startup produces an empty identity set and still falls through to the
main loop, and a tick with no usable camera frame continues the loop; the
process does not terminate with a non-zero exit code. -/
theorem c8_counterexample :
    (runStartup [("Naitik", none), ("Isha", none), ("Keval", none)]).valid_people = []
    ∧ (runStartup [("Naitik", none), ("Isha", none), ("Keval", none)]).people_status = []
    ∧ (runStartup [("Naitik", none), ("Isha", none), ("Keval", none)]).entersMainLoop = true
    ∧ mainTickResult false false = TickOutcome.cont :=
  ⟨rfl, rfl, rfl, rfl⟩

/-- C8 (amended): startup never terminates the process: whatever subset of
reference images loads (possibly none), the setup section logs and falls
through to the main loop with exactly the successfully loaded identities;
a tick without the quit key continues the loop regardless of capture
validity, and the quit key ends it. -/
theorem c8_startup_never_exits :
    ∀ (cfg : List (String × Option Img)),
      (runStartup cfg).entersMainLoop = true
      ∧ (runStartup cfg).valid_people = (cfg.filter (fun e => e.2.isSome)).map Prod.fst
      ∧ (∀ v : Bool, mainTickResult v false = TickOutcome.cont)
      ∧ (∀ v : Bool, mainTickResult v true = TickOutcome.quit) := by
  intro cfg
  refine ⟨rfl, loadPeople_valid cfg, ?_, ?_⟩
  · intro v
    cases v <;> rfl
  · intro v
    rfl

/-- C9: on every tick with at least one configured camera, one extra frame
is read from camera 0 and discarded before the capture loop, so camera 0's
cursor advances by two and every other camera's by one, and the frame set
holds camera 0's second frame of the tick; with no configured cameras the
capture step fails (the unguarded `caps[0]`). -/
theorem c9_double_read_camera_zero (caps : List Cam) (c0 : Cam) (rest : List Cam)
    (h : caps = c0 :: rest) :
    captureTick [] = none
    ∧ ∃ fs, captureTick caps
        = some ({ c0 with cursor := c0.cursor + 2 }
            :: rest.map (fun c => { c with cursor := c.cursor + 1 }), fs)
      ∧ dictGet 0 fs = c0.stream (c0.cursor + 1) := by
  subst h
  refine ⟨rfl, (readAll 0 ({ c0 with cursor := c0.cursor + 1 } :: rest)).2, ?_, ?_⟩
  · have h1 := readAll_cams ({ c0 with cursor := c0.cursor + 1 } :: rest) 0
    rw [List.map_cons] at h1
    show some ((readAll 0 ({ c0 with cursor := c0.cursor + 1 } :: rest)).1,
               (readAll 0 ({ c0 with cursor := c0.cursor + 1 } :: rest)).2)
      = some ({ c0 with cursor := c0.cursor + 2 }
          :: rest.map (fun c => { c with cursor := c.cursor + 1 }),
          (readAll 0 ({ c0 with cursor := c0.cursor + 1 } :: rest)).2)
    rw [h1]
  · have hsnd : (readAll 0 ({ c0 with cursor := c0.cursor + 1 } :: rest)).2
        = match c0.stream (c0.cursor + 1) with
          | some f => (0, f) :: (readAll 1 rest).2
          | none => (readAll 1 rest).2 := rfl
    rw [hsnd]
    cases hs : c0.stream (c0.cursor + 1) with
    | some f => rfl
    | none =>
      refine dictGet_eq_none_of_keys 0 _ ?_
      intro p hp
      have := readAll_keys_ge rest 1 p hp
      omega

/-- C9 (witness): the capture step on a single camera at cursor 0. -/
theorem c9_witness :
    captureTick [] = none
    ∧ ∃ fs, captureTick [wCam]
        = some ({ wCam with cursor := wCam.cursor + 2 }
            :: ([] : List Cam).map (fun c => { c with cursor := c.cursor + 1 }), fs)
      ∧ dictGet 0 fs = wCam.stream (wCam.cursor + 1) :=
  c9_double_read_camera_zero [wCam] wCam [] rfl

theorem fieldWritesOf_name (name : String) (a : Acc) :
    ∀ w ∈ fieldWritesOf name a, w.1 = name := by
  intro w hw
  rcases List.mem_cons.mp hw with h | hw
  · rw [h]
  rcases List.mem_cons.mp hw with h | hw
  · rw [h]
  rcases List.mem_cons.mp hw with h | hw
  · rw [h]
  · cases hw

theorem mem_take_mono {α : Type} : ∀ (l : List α) (k m : Nat), k ≤ m →
    ∀ x ∈ l.take k, x ∈ l.take m := by
  intro l
  induction l with
  | nil =>
    intro k m _ x hx
    rw [List.take_nil] at hx
    cases hx
  | cons a t ih =>
    intro k m hkm x hx
    cases k with
    | zero =>
      rw [List.take_zero] at hx
      cases hx
    | succ k2 =>
      cases m with
      | zero => exact absurd hkm (by omega)
      | succ m2 =>
        rw [List.take_succ_cons] at hx ⊢
        rcases List.mem_cons.mp hx with h | h
        · rw [h]
          exact List.mem_cons_self _ _
        · exact List.mem_cons_of_mem _ (ih k2 m2 (by omega) x h)

theorem take_drop_disjoint {α : Type} : ∀ (l : List α) (j : Nat), l.Nodup →
    ∀ x ∈ l.take j, x ∉ l.drop j := by
  intro l
  induction l with
  | nil =>
    intro j _ x hx
    rw [List.take_nil] at hx
    cases hx
  | cons a t ih =>
    intro j hnd x hx
    rcases List.nodup_cons.mp hnd with ⟨ha, ht⟩
    cases j with
    | zero =>
      rw [List.take_zero] at hx
      cases hx
    | succ j2 =>
      rw [List.take_succ_cons] at hx
      rw [List.drop_succ_cons]
      rcases List.mem_cons.mp hx with h | h
      · rw [h]
        intro hc
        exact ha (List.mem_of_mem_drop hc)
      · exact ih j2 ht x h

theorem passWrites_take_mem (oracle : Oracle) (frames : List (Nat × Img)) :
    ∀ (names : List String) (j : Nat) (ps : PS),
      (∀ n ∈ names, (dictGet n ps).isSome) →
      ∀ w ∈ (passWrites oracle frames names ps).take (3 * j), w.1 ∈ names.take j := by
  intro names
  induction names with
  | nil =>
    intro j ps _ w hw
    rw [show passWrites oracle frames [] ps = [] from rfl, List.take_nil] at hw
    cases hw
  | cons n rest ih =>
    intro j ps hwf w hw
    have hn : (dictGet n ps).isSome := hwf n (List.mem_cons_self _ _)
    cases hst : dictGet n ps with
    | none =>
      rw [hst] at hn
      simp at hn
    | some st =>
      rw [passWrites_cons, hst] at hw
      simp only at hw
      cases j with
      | zero =>
        rw [Nat.mul_zero, List.take_zero] at hw
        cases hw
      | succ j2 =>
        simp only [fieldWritesOf, List.cons_append, List.nil_append] at hw
        have h3 : 3 * (j2 + 1) = 3 * j2 + 1 + 1 + 1 := by omega
        rw [h3, List.take_succ_cons, List.take_succ_cons, List.take_succ_cons] at hw
        rw [List.take_succ_cons]
        rcases List.mem_cons.mp hw with h | hw
        · rw [h]
          exact List.mem_cons_self _ _
        rcases List.mem_cons.mp hw with h | hw
        · rw [h]
          exact List.mem_cons_self _ _
        rcases List.mem_cons.mp hw with h | hw
        · rw [h]
          exact List.mem_cons_self _ _
        · have hwf2 : ∀ m ∈ rest,
              (dictGet m (setFields ps n
                (fun s => publishFields s (evalIdentity oracle frames st.ref_img)))).isSome :=
            fun m hm => isSome_dictGet_setFields n m _ ps (hwf m (List.mem_cons_of_mem _ hm))
          exact List.mem_cons_of_mem _ (ih j2 _ hwf2 w hw)

/-- C10: a pass interrupted after any prefix of its shared-state writes, and
equally a completed pass, preserves the status dict's key set and order and
preserves every identity's `ref_img`; every name not touched by the applied
write prefix keeps all previous field values — in particular, when the
pass's first `k` writes fit inside the writes of the first `j` identities
of `valid_people`, every identity from position `j` on (one the aborted pass
never reached) keeps its entire previous record, and names outside
`valid_people` are never touched at all. -/
theorem c10_pass_mutates_only_result_fields (oracle : Oracle) (frames : List (Nat × Img))
    (names : List String) (ps : PS) (k : Nat) :
    ((((passWrites oracle frames names ps).take k).foldl applyW ps).map Prod.fst
        = ps.map Prod.fst)
    ∧ (∀ n : String,
        (dictGet n (((passWrites oracle frames names ps).take k).foldl applyW ps)).map
            IdentityStatus.ref_img
          = (dictGet n ps).map IdentityStatus.ref_img)
    ∧ (∀ n : String,
        (∀ w ∈ (passWrites oracle frames names ps).take k, w.1 ≠ n) →
        dictGet n (((passWrites oracle frames names ps).take k).foldl applyW ps)
          = dictGet n ps)
    ∧ (names.Nodup → (∀ m ∈ names, (dictGet m ps).isSome) →
        ∀ j : Nat, k ≤ 3 * j → ∀ n ∈ names.drop j,
          dictGet n (((passWrites oracle frames names ps).take k).foldl applyW ps)
            = dictGet n ps)
    ∧ (∀ n : String, n ∉ names →
        dictGet n (((passWrites oracle frames names ps).take k).foldl applyW ps)
          = dictGet n ps)
    ∧ ((process_multi_camera oracle frames names ps).map Prod.fst = ps.map Prod.fst)
    ∧ (∀ n : String,
        (dictGet n (process_multi_camera oracle frames names ps)).map IdentityStatus.ref_img
          = (dictGet n ps).map IdentityStatus.ref_img)
    ∧ (∀ n : String, n ∉ names →
        dictGet n (process_multi_camera oracle frames names ps) = dictGet n ps) := by
  have hsub : ∀ w ∈ (passWrites oracle frames names ps).take k, w.1 ∈ names :=
    fun w hw => passWrites_names oracle frames names ps w (List.mem_of_mem_take hw)
  refine ⟨foldl_applyW_keys _ ps, fun n => foldl_applyW_ref _ ps n, ?_, ?_, ?_, ?_, ?_, ?_⟩
  · intro n hn
    exact foldl_applyW_untouched _ ps n hn
  · intro hnd hwf j hkj n hndrop
    refine foldl_applyW_untouched _ ps n ?_
    intro w hwmem he
    have hw3 : w ∈ (passWrites oracle frames names ps).take (3 * j) :=
      mem_take_mono _ k (3 * j) hkj w hwmem
    have hwtake : w.1 ∈ names.take j :=
      passWrites_take_mem oracle frames names j ps hwf w hw3
    refine take_drop_disjoint names j hnd w.1 hwtake ?_
    rw [he]
    exact hndrop
  · intro n hn
    exact foldl_applyW_untouched _ ps n (fun w hw he => hn (he ▸ hsub w hw))
  · rw [← passWrites_sound]
    exact foldl_applyW_keys _ ps
  · intro n
    rw [← passWrites_sound]
    exact foldl_applyW_ref _ ps n
  · intro n hn
    rw [← passWrites_sound]
    exact foldl_applyW_untouched _ ps n
      (fun w hw he => hn (he ▸ passWrites_names oracle frames names ps w hw))

/-- C10 (witness): the frame conditions instantiated at the two-identity
fixture, interrupting the pass after two of its six field writes — a prefix
inside identity `A`'s writes (`2 ≤ 3 * 1`), so unreached identity `B`
(position 1 of `valid_people`) keeps its entire previous record, as the
leading concrete conjunct checks outright. -/
theorem c10_witness :
    dictGet "B" (((passWrites wOracle wFrames ["A", "B"] wPS).take 2).foldl applyW wPS)
        = some statusB
    ∧ (((((passWrites wOracle wFrames ["A", "B"] wPS).take 2).foldl applyW wPS).map Prod.fst
          = wPS.map Prod.fst)
      ∧ (∀ n : String,
          (dictGet n (((passWrites wOracle wFrames ["A", "B"] wPS).take 2).foldl applyW wPS)).map
              IdentityStatus.ref_img
            = (dictGet n wPS).map IdentityStatus.ref_img)
      ∧ (∀ n : String,
          (∀ w ∈ (passWrites wOracle wFrames ["A", "B"] wPS).take 2, w.1 ≠ n) →
          dictGet n (((passWrites wOracle wFrames ["A", "B"] wPS).take 2).foldl applyW wPS)
            = dictGet n wPS)
      ∧ ((["A", "B"] : List String).Nodup → (∀ m ∈ (["A", "B"] : List String), (dictGet m wPS).isSome) →
          ∀ j : Nat, 2 ≤ 3 * j → ∀ n ∈ (["A", "B"] : List String).drop j,
            dictGet n (((passWrites wOracle wFrames ["A", "B"] wPS).take 2).foldl applyW wPS)
              = dictGet n wPS)
      ∧ (∀ n : String, n ∉ ["A", "B"] →
          dictGet n (((passWrites wOracle wFrames ["A", "B"] wPS).take 2).foldl applyW wPS)
            = dictGet n wPS)
      ∧ ((process_multi_camera wOracle wFrames ["A", "B"] wPS).map Prod.fst = wPS.map Prod.fst)
      ∧ (∀ n : String,
          (dictGet n (process_multi_camera wOracle wFrames ["A", "B"] wPS)).map
              IdentityStatus.ref_img
            = (dictGet n wPS).map IdentityStatus.ref_img)
      ∧ (∀ n : String, n ∉ ["A", "B"] →
          dictGet n (process_multi_camera wOracle wFrames ["A", "B"] wPS) = dictGet n wPS)) :=
  ⟨by decide, c10_pass_mutates_only_result_fields wOracle wFrames ["A", "B"] wPS 2⟩

end MultiCamFace
